/-
  Verification of the odoc-mcp documentation server (mcp_server.py)
  against its natural-language specification.

  The Python source is shallowly embedded: pure helpers become Lean
  functions; the HTTP transport, the BeautifulSoup HTML parser, the
  local filesystem and the JSON decoder are external collaborators and
  are modelled as environment records whose operations either are total
  (HTML parsing never fails in BeautifulSoup) or return
  `Except PyErr _` (operations that can raise a Python exception).
  Python strings are modelled as `String` (sequences of characters);
  identifier attributes handled by the spec-kind classifier are
  modelled as `List Char` so that prefix reasoning is structural.
  Python `time.time()` instants are modelled as rationals.
-/
import Mathlib

namespace OdocMcp

/-- A Python exception value: `aiohttp.ClientError` is distinguished
because the `sherlodoc` tool has a dedicated handler for it; every
other exception is `other`. -/
inductive PyErr where
  | clientError (msg : String)
  | other (msg : String)
deriving DecidableEq, Repr

/-- Python truthiness of an `Optional[str]` argument (`if version:`):
`None` and the empty string are falsy. -/
def pyTruthyStr : Option String → Bool
  | none => false
  | some s => s ≠ ""

/- ---------------------------------------------------------------
   Python string primitives.  A Python `str` is a sequence of
   characters; each primitive is defined structurally on the
   character list underlying the Lean `String`, mirroring the Python
   per-character semantics.
   --------------------------------------------------------------- -/

/-- Python `s.startswith(p)`. -/
def pyStartsWith (s p : String) : Bool :=
  p.toList.isPrefixOf s.toList

/-- Python `s.endswith(p)`. -/
def pyEndsWith (s p : String) : Bool :=
  p.toList.isSuffixOf s.toList

/-- Python `s.lower()` (character-wise lowering). -/
def pyLower (s : String) : String :=
  String.mk (s.toList.map Char.toLower)

/-- Python `s.split(sep)` for a one-character separator, on the
character list. -/
def splitChar (sep : Char) : List Char → List (List Char)
  | [] => [[]]
  | c :: rest =>
    match splitChar sep rest with
    | h :: t => if c == sep then [] :: h :: t else (c :: h) :: t
    | [] => [[]]

/-- Python `s.split(sep)` for a one-character separator. -/
def pySplit (s : String) (sep : Char) : List String :=
  (splitChar sep s.toList).map String.mk

/-- Python `sep.join(parts)`. -/
def pyJoin (sep : String) : List String → String
  | [] => ""
  | [x] => x
  | x :: xs => x ++ sep ++ pyJoin sep xs

/-- Python `s.strip()`. -/
def pyStrip (s : String) : String :=
  String.mk
    (((s.toList.dropWhile Char.isWhitespace).reverse.dropWhile
      Char.isWhitespace).reverse)

/-- Python `s.lstrip(c)` for a one-character strip set. -/
def pyLstripChar (s : String) (c : Char) : String :=
  String.mk (s.toList.dropWhile (· == c))

/-- Python `s[n:]` (slicing drops characters). -/
def pyDrop (s : String) (n : Nat) : String :=
  String.mk (s.toList.drop n)

/-- The Python string comparison, lexicographic by code point, on
character lists. -/
def charsLe : List Char → List Char → Bool
  | [], _ => true
  | _ :: _, [] => false
  | a :: as, b :: bs =>
    if a < b then true
    else if b < a then false
    else charsLe as bs

/-- The Python string comparison on strings. -/
def pyStrLe (a b : String) : Bool :=
  charsLe a.toList b.toList

/-- The comparison `pyStrLe` as a relation, for sorting. -/
def pyStrLeP (a b : String) : Prop :=
  pyStrLe a b = true

instance : DecidableRel pyStrLeP :=
  fun a b => instDecidableEqBool (pyStrLe a b) true

/- ---------------------------------------------------------------
   Simple TTL cache (mcp_server.py lines 61-72).
   The Python store is a dict `key -> (value, expiry_time)`; a dict
   with last-write-wins update is modelled as an association list to
   which `cache_set` prepends, with lookup returning the most recent
   binding.  `time.time()` is passed explicitly as `now`.
   --------------------------------------------------------------- -/

/-- Source `cache_set(key, value, ttl)`: store `(value, now + ttl)` under `key`. -/
def cache_set {V : Type} (c : List (String × V × ℚ)) (key : String)
    (value : V) (now ttl : ℚ) : List (String × V × ℚ) :=
  (key, value, now + ttl) :: c

/-- Source `cache_get(key)`: return the stored value if the entry exists and
`entry[1] > time.time()`, else `None`. -/
def cache_get {V : Type} (c : List (String × V × ℚ)) (key : String)
    (now : ℚ) : Option V :=
  match c.find? (fun e => e.1 == key) with
  | some (_, v, expiry) => if expiry > now then some v else none
  | none => none

/- ---------------------------------------------------------------
   Spec-kind classification (mcp_server.py lines 224-238).
   The id attribute of a container is matched against the ordered
   prefix chain val- / type- / module-type- / module- / exception- /
   class-; the name is the identifier with the matched prefix dropped.
   --------------------------------------------------------------- -/

/-- The `anchor.startswith(...)` / `anchor[n:]` chain of
`extract_specs`, verbatim from the source: first matching branch wins,
in source order. -/
def categorize (anchor : List Char) : String × List Char :=
  if ("val-".toList).isPrefixOf anchor then ("val", anchor.drop 4)
  else if ("type-".toList).isPrefixOf anchor then ("type", anchor.drop 5)
  else if ("module-type-".toList).isPrefixOf anchor then ("module type", anchor.drop 12)
  else if ("module-".toList).isPrefixOf anchor then ("module", anchor.drop 7)
  else if ("exception-".toList).isPrefixOf anchor then ("exception", anchor.drop 10)
  else if ("class-".toList).isPrefixOf anchor then ("class", anchor.drop 6)
  else ("other", anchor)

/-- The ordered prefix table the specification describes:
prefix, kind. -/
def prefixTable : List (List Char × String) :=
  [("val-".toList, "val"), ("type-".toList, "type"),
   ("module-type-".toList, "module type"), ("module-".toList, "module"),
   ("exception-".toList, "exception"), ("class-".toList, "class")]

/-- Pick an entry of maximal prefix length from a list of table
entries (earlier entries win ties). -/
def longestEntry : List (List Char × String) → Option (List Char × String)
  | [] => none
  | e :: es =>
    match longestEntry es with
    | none => some e
    | some e2 => if e2.1.length > e.1.length then some e2 else some e

/-- Specification-side description, following the words of the spec:
classification by longest-prefix
match over the ordered prefix table, unmatched identifiers yielding
kind "other" and the full identifier as name. -/
def categorizeLongest (anchor : List Char) : String × List Char :=
  match longestEntry (prefixTable.filter (fun e => e.1.isPrefixOf anchor)) with
  | some (p, k) => (k, anchor.drop p.length)
  | none => ("other", anchor)

/- ---------------------------------------------------------------
   Spec extraction (mcp_server.py lines 195-242).
   `soup.find_all("div", class_="spec")` yields the spec container
   elements in document order; each container is modelled by the data
   the loop body reads from it.
   --------------------------------------------------------------- -/

/-- One `div.spec` container as seen by the loop body of
`extract_specs`: its `id` attribute (`.get("id", "")`), the stripped
text of its first `code` child if any, and the stripped paragraph
texts of the next-sibling `div.spec-doc` if such a sibling exists. -/
structure SpecDiv where
  id : List Char
  code : Option String
  specDoc : Option (List String)
deriving DecidableEq, Repr

/-- One extracted spec item `{kind, name, signature, doc}`. -/
structure SpecItem where
  kind : String
  name : List Char
  signature : String
  doc : String
deriving DecidableEq, Repr

/-- The body of the `extract_specs` loop for one container. -/
def processDiv (d : SpecDiv) : SpecItem :=
  let signature := d.code.getD ""
  let doc :=
    match d.specDoc with
    | some parts => pyStrip (pyJoin " " parts)
    | none => ""
  let (kind, name) := categorize d.id
  ⟨kind, name, signature, doc⟩

/-- The `for spec_div in ...` loop of `extract_specs`: appends one
item per container until `len(items) >= limit`, at which point it sets
`truncated` and breaks. -/
def extract_specs_loop (limit : Nat) :
    List SpecDiv → List SpecItem → List SpecItem × Bool
  | [], items => (items, false)
  | d :: rest, items =>
    if items.length ≥ limit then (items, true)
    else extract_specs_loop limit rest (items ++ [processDiv d])

/-- Source `extract_specs` on the parsed container list (the empty-HTML
short-circuit is handled by `extract_specs_html` below). -/
def extract_specs (divs : List SpecDiv) (limit : Nat) :
    List SpecItem × Bool :=
  extract_specs_loop limit divs []

/- ---------------------------------------------------------------
   Remote module file matcher (mcp_server.py lines 437-459).
   --------------------------------------------------------------- -/

/-- Source `find_module_file(files, module_path)`: exact suffix pass over the
artifact list in order, then a case-insensitive pass. -/
def find_module_file (files : List String) (module_path : String) :
    Option String :=
  let parts := pySplit module_path '.'
  let suffix := pyJoin "/" parts ++ "/index.html"
  match files.find? (fun f => pyEndsWith f suffix) with
  | some f => some f
  | none =>
    let suffix_lower := pyLower suffix
    files.find? (fun f => pyEndsWith (pyLower f) suffix_lower)

/- ---------------------------------------------------------------
   "Available top-level modules" hint (mcp_server.py lines 493-501).
   `top_modules` is a Python set built by the loop; `sorted(...)` then
   enumerates it in ascending order.  A set under construction is
   modelled as a duplicate-free list in insertion order (the order is
   irrelevant once sorted).
   --------------------------------------------------------------- -/

/-- Python `set.add`: insert if not already present. -/
def pySetAdd (s : List String) (x : String) : List String :=
  if x ∈ s then s else s ++ [x]

/-- The `for f in files` loop populating `top_modules`: keep paths
starting with "doc/" and ending with "/index.html" whose remainder
after "doc/" splits into at least 3 segments, and add the second
segment (`parts[1]`). -/
def topModulesOf (files : List String) : List String :=
  files.foldl
    (fun acc f =>
      if pyStartsWith f "doc/" && pyEndsWith f "/index.html" then
        let parts := pySplit (pyDrop f 4) '/'
        if parts.length ≥ 3 then pySetAdd acc (parts.getD 1 "") else acc
      else acc)
    []

/-- Source `sorted(top_modules)[:30]`. -/
def availableTopLevelHint (files : List String) : List String :=
  ((topModulesOf files).insertionSort pyStrLeP).take 30

/- ---------------------------------------------------------------
   Library/module index extractor (mcp_server.py lines 245-289).
   `soup.children` yields the direct children of the parsed fragment;
   each child is modelled by the data the loop body reads from it.
   --------------------------------------------------------------- -/

/-- One `li` inside a `ul`/`dl` child: the stripped text of its first
link if any, and its own stripped full text. -/
structure LItem where
  link : Option String
  fullText : String
deriving DecidableEq, Repr

/-- One direct child of the content root as seen by the
`extract_package_libraries` walk: an `h2` heading with its stripped
text, a `ul`/`dl` list with its `li` items in document order, any
other element, or a non-element node (skipped). -/
inductive PNode where
  | h2 (text : String)
  | listEl (lis : List LItem)
  | otherEl
  | nonElement
deriving DecidableEq, Repr

/-- A `{name, synopsis}` module entry. -/
structure ModuleEntry where
  name : String
  synopsis : String
deriving DecidableEq, Repr

/-- A `{name, modules}` library record. -/
structure Library where
  name : String
  modules : List ModuleEntry
deriving DecidableEq, Repr

/-- Source `full_text[len(mod_name):].strip().lstrip(":").strip()`. -/
def synopsisOf (modName fullText : String) : String :=
  pyStrip (pyLstripChar (pyStrip (pyDrop fullText modName.toList.length)) ':')

/-- The module entries contributed by one `ul`/`dl` child: one entry
per `li` that contains a link. -/
def modulesOfList (lis : List LItem) : List ModuleEntry :=
  lis.filterMap
    (fun li => li.link.map (fun n => ⟨n, synopsisOf n li.fullText⟩))

/-- The body of the `for element in soup.children` loop; the state is
(`libraries`, `current_lib`). -/
def processNode (st : List Library × Option Library) (n : PNode) :
    List Library × Option Library :=
  match n with
  | .h2 t =>
    match st.2 with
    | some lib => (st.1 ++ [lib], some ⟨t, []⟩)
    | none => (st.1, some ⟨t, []⟩)
  | .listEl lis =>
    let modules := modulesOfList lis
    if modules.isEmpty then st
    else
      match st.2 with
      | none => (st.1, some ⟨"default", modules⟩)
      | some lib => (st.1, some ⟨lib.name, lib.modules ++ modules⟩)
  | .otherEl => st
  | .nonElement => st

/-- Source `extract_package_libraries` on the parsed child list (the
empty-HTML short-circuit is handled by the caller embedding below). -/
def extract_package_libraries (nodes : List PNode) : List Library :=
  let st := nodes.foldl processNode ([], none)
  match st.2 with
  | some lib => st.1 ++ [lib]
  | none => st.1

/-- All linked list items of all `ul`/`dl` direct children, in
document order. -/
def linkedModules (nodes : List PNode) : List ModuleEntry :=
  nodes.foldr
    (fun n acc =>
      match n with
      | .listEl lis => modulesOfList lis ++ acc
      | _ => acc)
    []

/- ---------------------------------------------------------------
   JSON payloads.  The upstream interface delivers two object shapes:
   status records `{failed, files}` and doc fragments
   `{preamble, content}`; a decoded JSON object is modelled with those
   four optional fields (`dict.get` is an optional lookup).
   --------------------------------------------------------------- -/

structure JsonObj where
  failed : Option Bool
  files : Option (List String)
  preamble : Option String
  content : Option String
deriving DecidableEq, Repr

/-- Python truthiness of a decoded JSON dict (`if doc:`): a dict is
truthy iff it is non-empty, i.e. carries at least one field. -/
def JsonObj.pyTruthy (o : JsonObj) : Bool :=
  o.failed.isSome || o.files.isSome || o.preamble.isSome || o.content.isSome

/- ---------------------------------------------------------------
   Parsed HTML documents.  BeautifulSoup never raises on malformed
   input, so parsing is a total function `String → HtmlDoc`; the
   record carries each view the extractors read from the soup.
   --------------------------------------------------------------- -/

structure SherloLink where
  href : Option String
  em : Option String
deriving DecidableEq, Repr

structure SherloPre where
  text : String
  link : Option SherloLink
deriving DecidableEq, Repr

structure SherloLi where
  pre : Option SherloPre
  commentParas : Option (List String)
deriving DecidableEq, Repr

/-- A parsed HTML document: `find_all("a")` href attributes
(`.get("href", "")`), `find_all("p")` stripped texts, the
`div.spec` containers, the direct children of the root, and the
`find_all("li")` items of a Sherlodoc result page. -/
structure HtmlDoc where
  anchors : List String
  paragraphs : List String
  specDivs : List SpecDiv
  children : List PNode
  lis : List SherloLi
deriving Repr

def SAGE_BASE : String := "https://sage.ci.dev/current/p"

/-- The remote collaborators of one request: the HTTP transport
(`session.get`, which may raise a transport error), the JSON decoder
of a response body (`resp.json`, which may raise on malformed JSON),
the HTML parser, URL quoting, the external `find_latest_version`
policy, and a read-only snapshot of the TTL cache split by the type
stored under each key family. -/
structure RemoteEnv where
  httpGet : String → Except PyErr (Nat × String)
  parseJsonBody : String → Except PyErr JsonObj
  parseHtml : String → HtmlDoc
  urlquote : String → String
  findLatest : List String → String
  cacheListing : String → Option (List String)
  cacheJson : String → Option JsonObj

/-- Source `fetch_text(url)` (mcp_server.py lines 79-84): `None` on a
non-200 status; a transport exception propagates. -/
def fetch_text (env : RemoteEnv) (url : String) :
    Except PyErr (Option String) := do
  let (status, body) ← env.httpGet url
  if status ≠ 200 then return none
  return some body

/-- Source `fetch_json(url)` (mcp_server.py lines 87-92): `None` on a
non-200 status; a transport exception or a JSON decode error
propagates. -/
def fetch_json (env : RemoteEnv) (url : String) :
    Except PyErr (Option JsonObj) := do
  let (status, body) ← env.httpGet url
  if status ≠ 200 then return none
  let v ← env.parseJsonBody body
  return some v

/-- Python `s.rstrip("/")`: drop every trailing slash. -/
def pyRstripSlash (s : String) : String :=
  String.mk (((s.toList).reverse.dropWhile (· == '/')).reverse)

/-- Source `parse_directory_listing` (mcp_server.py lines 99-110) on a
parsed page: skip hrefs starting with "?" or "/" and the literal
"../", keep hrefs ending in "/" with the trailing slashes stripped. -/
def parse_directory_listing (doc : HtmlDoc) : List String :=
  doc.anchors.foldr
    (fun href names =>
      if pyStartsWith href "?" || pyStartsWith href "/" || href == "../" then
        names
      else if pyEndsWith href "/" then pyRstripSlash href :: names
      else names)
    []

/-- Source `extract_preamble_text` (mcp_server.py lines 184-192). -/
def extract_preamble_text (parse : String → HtmlDoc) (html : String) :
    String :=
  if html == "" then ""
  else pyStrip (pyJoin " " (parse html).paragraphs)

/-- Source `extract_specs` on raw HTML, with the empty-input
short-circuit. -/
def extract_specs_html (parse : String → HtmlDoc) (html : String)
    (limit : Nat) : List SpecItem × Bool :=
  if html == "" then ([], false)
  else extract_specs (parse html).specDivs limit

/-- Source `extract_package_libraries` on raw HTML, with the empty-input
short-circuit. -/
def extract_package_libraries_html (parse : String → HtmlDoc)
    (html : String) : List Library :=
  if html == "" then []
  else extract_package_libraries (parse html).children

/-- Source `get_all_packages` (mcp_server.py lines 117-126); the cache write
does not affect the returned value and is elided. -/
def get_all_packages (env : RemoteEnv) : Except PyErr (List String) :=
  match env.cacheListing "all_packages" with
  | some cached => .ok cached
  | none => do
    let html? ← fetch_text env (SAGE_BASE ++ "/")
    match html? with
    | none => return []
    | some html => return parse_directory_listing (env.parseHtml html)

/-- Source `resolve_version` (mcp_server.py lines 133-147).  The second
component of the result is the list of URLs fetched during the call,
so that "no fetch happens" is an observable fact. -/
def resolve_version (env : RemoteEnv) (package : String)
    (version : Option String) :
    Except PyErr (Option String × List String) :=
  if pyTruthyStr version then .ok (version, [])
  else
    let cacheKey := "versions:" ++ package
    match env.cacheListing cacheKey with
    | some versions =>
      .ok (if versions.isEmpty then none else some (env.findLatest versions), [])
    | none => do
      let url := SAGE_BASE ++ "/" ++ package ++ "/"
      let html? ← fetch_text env url
      match html? with
      | none => return (none, [url])
      | some html =>
        let versions := parse_directory_listing (env.parseHtml html)
        if versions.isEmpty then return (none, [url])
        else return (some (env.findLatest versions), [url])

/-- Source `get_status` (mcp_server.py lines 154-162); the cache write is
elided. -/
def get_status (env : RemoteEnv) (package version : String) :
    Except PyErr (Option JsonObj) :=
  match env.cacheJson ("status:" ++ package ++ "/" ++ version) with
  | some cached => .ok (some cached)
  | none =>
    fetch_json env (SAGE_BASE ++ "/" ++ package ++ "/" ++ version ++ "/status.json")

/-- Source `get_doc_json` (mcp_server.py lines 169-177); the cache write is
elided. -/
def get_doc_json (env : RemoteEnv) (package version path : String) :
    Except PyErr (Option JsonObj) :=
  match env.cacheJson ("doc:" ++ package ++ "/" ++ version ++ "/" ++ path) with
  | some cached => .ok (some cached)
  | none =>
    fetch_json env (SAGE_BASE ++ "/" ++ package ++ "/" ++ version ++ "/" ++ path)

/- ---------------------------------------------------------------
   Query-surface results.  Each tool returns a JSON-style dict; the
   possible result shapes are modelled as one sum type.  (The
   "truncated"/"note" pair of fields is carried as one flag.)
   --------------------------------------------------------------- -/

structure SherlodocEntry where
  signature : Option String
  url : Option String
  module_path : Option String
  documentation : Option String
deriving DecidableEq, Repr

structure LocalModule where
  library : String
  module_path : String
deriving DecidableEq, Repr

inductive ToolResult where
  | errorMsg (msg : String)
  | errorWithHint (msg : String) (available_top_level : List String)
  | sherlodocOk (query : String) (results : List SherlodocEntry)
      (total_results : Nat)
  | searchOk (query : String) (matchNames : List String) (total_matches : Nat)
  | packageInfo (package version : String) (failed : Bool)
      (description : String) (libraries : List Library)
  | moduleDoc (package version module_path preamble : String)
      (items : List SpecItem) (truncated : Bool)
  | localModules (modules : List LocalModule) (total : Nat)
  | localModuleDoc (library module_path preamble : String)
      (items : List SpecItem) (truncated : Bool)
deriving DecidableEq, Repr

def PyErr.msg : PyErr → String
  | .clientError m => m
  | .other m => m

/- ---------------------------------------------------------------
   Tool 1: sherlodoc (mcp_server.py lines 296-346).
   --------------------------------------------------------------- -/

/-- The per-`li` result dict of the sherlodoc scrape loop. -/
def sherlodocResultOfLi (li : SherloLi) : SherlodocEntry :=
  let (signature, url, module_path) :=
    match li.pre with
    | none => (none, none, none)
    | some pre =>
      match pre.link with
      | none => (some pre.text, none, none)
      | some link =>
        match link.href with
        | some href =>
          if href ≠ "" then (some pre.text, some href, link.em)
          else (some pre.text, none, none)
        | none => (some pre.text, none, none)
  let documentation :=
    match li.commentParas with
    | some parts =>
      if parts.isEmpty then none else some (pyJoin " " parts)
    | none => none
  ⟨signature, url, module_path, documentation⟩

/-- Source `if result.get("signature")`: the signature key is present and
non-empty. -/
def sherloKeep (e : SherlodocEntry) : Bool :=
  match e.signature with
  | some s => s ≠ ""
  | none => false

/-- The body of the try block of the sherlodoc tool. -/
def sherlodoc_body (env : RemoteEnv) (query : String) :
    Except PyErr ToolResult := do
  let encoded := env.urlquote query
  let url := "https://doc.sherlocode.com/api?q=" ++ encoded
  let (status, html) ← env.httpGet url
  if status ≠ 200 then
    return .errorMsg ("Sherlodoc returned status " ++ toString status)
  let doc := env.parseHtml html
  let results := ((doc.lis.take 20).map sherlodocResultOfLi).filter sherloKeep
  return .sherlodocOk query results results.length

/-- The sherlodoc tool: the body runs under
`except aiohttp.ClientError` / `except Exception` handlers, so every
failure is converted to an error result. -/
def sherlodoc (env : RemoteEnv) (query : String) : Except PyErr ToolResult :=
  .ok (match sherlodoc_body env query with
    | .ok r => r
    | .error (.clientError m) =>
      .errorMsg ("Failed to connect to Sherlodoc: " ++ m)
    | .error (.other m) => .errorMsg ("Sherlodoc search failed: " ++ m))

/- ---------------------------------------------------------------
   Tool 2: search_package_names (mcp_server.py lines 353-376).
   --------------------------------------------------------------- -/

/-- Python substring membership `needle in hay` on character lists. -/
def charsContain (hay needle : List Char) : Bool :=
  match hay with
  | [] => needle.isEmpty
  | c :: t => needle.isPrefixOf (c :: t) || charsContain t needle

/-- Python `needle in hay` for strings. -/
def strContains (hay needle : String) : Bool :=
  charsContain hay.toList needle.toList

def search_body (env : RemoteEnv) (query : String) :
    Except PyErr ToolResult := do
  let packages ← get_all_packages env
  let q := pyLower query
  let matchList := packages.filter (fun p => strContains (pyLower p) q)
  return .searchOk query (matchList.take 50) matchList.length

/-- The search_package_names tool with its `except Exception`
boundary. -/
def search_package_names (env : RemoteEnv) (query : String) :
    Except PyErr ToolResult :=
  .ok (match search_body env query with
    | .ok r => r
    | .error e => .errorMsg ("Package search failed: " ++ e.msg))

/- ---------------------------------------------------------------
   Tool 3: get_package_info (mcp_server.py lines 383-430).
   --------------------------------------------------------------- -/

def get_package_info_body (env : RemoteEnv) (package_name : String)
    (version : Option String) : Except PyErr ToolResult := do
  let (ver?, _) ← resolve_version env package_name version
  match ver? with
  | none =>
    return .errorMsg ("Package " ++ package_name ++ " not found on sage.ci.dev")
  | some ver => do
    let status? ← get_status env package_name ver
    match status? with
    | none =>
      return .errorMsg ("Could not fetch status for " ++ package_name ++ "/" ++ ver)
    | some status =>
      let failed := status.failed.getD true
      let doc? ← get_doc_json env package_name ver "doc/index.html.json"
      let (description, libraries) :=
        match doc? with
        | some doc =>
          if doc.pyTruthy then
            let preamble := doc.preamble.getD ""
            let content := doc.content.getD ""
            let d := extract_preamble_text env.parseHtml preamble
            let d := if d == "" then extract_preamble_text env.parseHtml content else d
            (d, extract_package_libraries_html env.parseHtml content)
          else ("", ([] : List Library))
        | none => ("", [])
      return .packageInfo package_name ver failed description libraries

/-- The get_package_info tool with its `except Exception` boundary. -/
def get_package_info (env : RemoteEnv) (package_name : String)
    (version : Option String) : Except PyErr ToolResult :=
  .ok (match get_package_info_body env package_name version with
    | .ok r => r
    | .error e => .errorMsg ("Failed to get package info: " ++ e.msg))

/- ---------------------------------------------------------------
   Tool 4: get_module_doc (mcp_server.py lines 462-531).
   --------------------------------------------------------------- -/

def get_module_doc_body (env : RemoteEnv) (package_name module_path : String)
    (version : Option String) : Except PyErr ToolResult := do
  let (ver?, _) ← resolve_version env package_name version
  match ver? with
  | none =>
    return .errorMsg ("Package " ++ package_name ++ " not found on sage.ci.dev")
  | some ver => do
    let status? ← get_status env package_name ver
    match status? with
    | none =>
      return .errorMsg ("Could not fetch status for " ++ package_name ++ "/" ++ ver)
    | some status =>
      let files := status.files.getD []
      match find_module_file files module_path with
      | none =>
        return .errorWithHint
          ("Module " ++ module_path ++ " not found in " ++ package_name ++ "/" ++ ver)
          (availableTopLevelHint files)
      | some matched_file => do
        let json_path := matched_file ++ ".json"
        let doc? ← get_doc_json env package_name ver json_path
        match doc? with
        | none =>
          return .errorMsg ("Could not fetch documentation for " ++ module_path)
        | some doc =>
          let preamble := extract_preamble_text env.parseHtml (doc.preamble.getD "")
          let (specs, truncated) :=
            extract_specs_html env.parseHtml (doc.content.getD "") 100
          return .moduleDoc package_name ver module_path preamble specs truncated

/-- The get_module_doc tool with its `except Exception` boundary. -/
def get_module_doc (env : RemoteEnv) (package_name module_path : String)
    (version : Option String) : Except PyErr ToolResult :=
  .ok (match get_module_doc_body env package_name module_path version with
    | .ok r => r
    | .error e => .errorMsg ("Failed to get module doc: " ++ e.msg))

/- ---------------------------------------------------------------
   Local odoc tools (mcp_server.py lines 538-628).  The filesystem is
   an environment: directory tests are total, directory enumeration,
   file reads and JSON decoding can raise OS / decode errors.
   Listings are presented already sorted (`sorted(...)` in the
   source is a pure reordering).
   --------------------------------------------------------------- -/

def SKIP_DIRS : List String := ["odoc.support"]

structure LocalEnv where
  root : Option String
  isDir : String → Bool
  iterdir : String → Except PyErr (List String)
  isDirEntry : String → Bool
  rglob : String → Except PyErr (List String)
  isFile : String → Bool
  readText : String → Except PyErr String
  jsonLoads : String → Except PyErr JsonObj
  parseHtml : String → HtmlDoc
  cacheLocal : Option ToolResult

/-- The entries one library directory contributes in
`_scan_local_modules`: each `index.html.json` below it whose relative
directory path is non-empty. -/
def scanLib (lib : String) (rels : List String) : List LocalModule :=
  rels.filterMap
    (fun rel =>
      let parts := (pySplit rel '/').dropLast
      if parts.isEmpty then none
      else some ⟨lib, pyJoin "." parts⟩)

/-- The outer loop of the local module scan over the child
directories of the root. -/
def scanDirsLoop (env : LocalEnv) (root : String) :
    List String → Except PyErr (List LocalModule)
  | [] => .ok []
  | name :: rest =>
    if !(env.isDirEntry (root ++ "/" ++ name)) || name ∈ SKIP_DIRS then
      scanDirsLoop env root rest
    else do
      let rels ← env.rglob (root ++ "/" ++ name)
      let more ← scanDirsLoop env root rest
      return scanLib name rels ++ more

def scan_local_modules (env : LocalEnv) (root : String) :
    Except PyErr (List LocalModule) := do
  let entries ← env.iterdir root
  scanDirsLoop env root entries

/-- The list_local_modules tool (mcp_server.py lines 560-583); note
that it has no `try`/`except` boundary, so filesystem errors
propagate. -/
def list_local_modules (env : LocalEnv) : Except PyErr ToolResult :=
  match env.root with
  | none =>
    .ok (.errorMsg "Local docs not configured. Start the server with --local-docs <path>.")
  | some root =>
    match env.cacheLocal with
    | some cached => .ok cached
    | none =>
      if !(env.isDir root) then
        .ok (.errorMsg ("Local docs path does not exist: " ++ root))
      else do
        let modules ← scan_local_modules env root
        return .localModules modules modules.length

/-- The library-directory probe loop of `get_local_module_doc`. -/
def localDocLoop (env : LocalEnv) (root suffixPath module_path : String) :
    List String → Except PyErr ToolResult
  | [] => .ok (.errorMsg ("Module " ++ module_path ++ " not found in local docs"))
  | name :: rest =>
    if !(env.isDirEntry (root ++ "/" ++ name)) || name ∈ SKIP_DIRS then
      localDocLoop env root suffixPath module_path rest
    else
      let candidate := root ++ "/" ++ name ++ "/" ++ suffixPath
      if env.isFile candidate then do
        let txt ← env.readText candidate
        let doc ← env.jsonLoads txt
        let preamble := extract_preamble_text env.parseHtml (doc.preamble.getD "")
        let (specs, truncated) :=
          extract_specs_html env.parseHtml (doc.content.getD "") 100
        return .localModuleDoc name module_path preamble specs truncated
      else localDocLoop env root suffixPath module_path rest

/-- The get_local_module_doc tool (mcp_server.py lines 587-628); note
that it has no `try`/`except` boundary, so a read error or a JSON
decode error propagates. -/
def get_local_module_doc (env : LocalEnv) (module_path : String) :
    Except PyErr ToolResult :=
  match env.root with
  | none =>
    .ok (.errorMsg "Local docs not configured. Start the server with --local-docs <path>.")
  | some root =>
    if !(env.isDir root) then
      .ok (.errorMsg ("Local docs path does not exist: " ++ root))
    else
      let parts := pySplit module_path '.'
      let suffixPath := pyJoin "/" parts ++ "/index.html.json"
      match env.iterdir root with
      | .error e => .error e
      | .ok entries => localDocLoop env root suffixPath module_path entries

/- ---------------------------------------------------------------
   Concrete environments used to exercise the operations.
   --------------------------------------------------------------- -/

/-- Whether a direct child is a level-2 heading. -/
def PNode.isH2 : PNode → Bool
  | .h2 _ => true
  | _ => false

def emptyHtmlDoc : HtmlDoc := ⟨[], [], [], [], []⟩

/-- A transport that always fails with an `aiohttp.ClientError`. -/
def offlineEnv : RemoteEnv where
  httpGet := fun _ => .error (.clientError "connection refused")
  parseJsonBody := fun _ => .error (.other "no body")
  parseHtml := fun _ => emptyHtmlDoc
  urlquote := fun s => s
  findLatest := fun l => l.headD ""
  cacheListing := fun _ => none
  cacheJson := fun _ => none

/-- A backend that answers 404 to every request. -/
def notFoundEnv : RemoteEnv where
  httpGet := fun _ => .ok (404, "")
  parseJsonBody := fun _ => .error (.other "no body")
  parseHtml := fun _ => emptyHtmlDoc
  urlquote := fun s => s
  findLatest := fun l => l.headD ""
  cacheListing := fun _ => none
  cacheJson := fun _ => none

/-- A cached status record for package `pkg` version `1.0` whose
artifact list contains three module pages under two top-level
modules. -/
def statusEnvC7 : RemoteEnv where
  httpGet := fun _ => .ok (404, "")
  parseJsonBody := fun _ => .error (.other "no body")
  parseHtml := fun _ => emptyHtmlDoc
  urlquote := fun s => s
  findLatest := fun l => l.headD ""
  cacheListing := fun _ => none
  cacheJson := fun k =>
    if k = "status:pkg/1.0" then
      some ⟨some false,
        some ["doc/lib/Beta/index.html", "doc/lib/Alpha/index.html",
              "doc/lib/Alpha/Sub/index.html"], none, none⟩
    else none

/-- A cached status record for package `pkg` version `1.0` that lacks
the `failed` field. -/
def statusEnvC10 : RemoteEnv where
  httpGet := fun _ => .ok (404, "")
  parseJsonBody := fun _ => .error (.other "no body")
  parseHtml := fun _ => emptyHtmlDoc
  urlquote := fun s => s
  findLatest := fun l => l.headD ""
  cacheListing := fun _ => none
  cacheJson := fun k =>
    if k = "status:pkg/1.0" then some ⟨none, some [], none, none⟩ else none

/-- A local docs tree holding one library directory whose module file
exists but contains malformed JSON. -/
def badLocalEnv : LocalEnv where
  root := some "/docs"
  isDir := fun _ => true
  iterdir := fun _ => .ok ["lib"]
  isDirEntry := fun _ => true
  rglob := fun _ => .ok []
  isFile := fun _ => true
  readText := fun _ => .ok "not json"
  jsonLoads := fun _ => .error (.other "Expecting value")
  parseHtml := fun _ => emptyHtmlDoc
  cacheLocal := none

/-- A local docs root whose directory enumeration raises an OS
error. -/
def badScanEnv : LocalEnv where
  root := some "/docs"
  isDir := fun _ => true
  iterdir := fun _ => .error (.other "Permission denied")
  isDirEntry := fun _ => true
  rglob := fun _ => .error (.other "Permission denied")
  isFile := fun _ => false
  readText := fun _ => .error (.other "Permission denied")
  jsonLoads := fun _ => .error (.other "Expecting value")
  parseHtml := fun _ => emptyHtmlDoc
  cacheLocal := none

/- ---------------------------------------------------------------
   Specification-side descriptions used by the theorems.
   --------------------------------------------------------------- -/

/-- Does an artifact path qualify for the "available top-level
modules" hint: under the `doc/` root, named `index.html`, with at
least one intermediate segment so that a second segment exists. -/
def hintQual (f : String) : Bool :=
  pyStartsWith f "doc/" && pyEndsWith f "/index.html" &&
    decide ((pySplit (pyDrop f 4) '/').length ≥ 3)

/-- The second path segment after the `doc/` root. -/
def hintExtract (f : String) : String :=
  (pySplit (pyDrop f 4) '/').getD 1 ""

/-- Specification-side description, following the words of the spec:
filter the qualifying paths, map
to the second segment, deduplicate, and sort ascending. -/
def hintSpec (files : List String) : List String :=
  (((files.filter hintQual).map hintExtract).dedup).insertionSort pyStrLeP

/-- Element `x` is the first element of `l` satisfying `p`. -/
def FirstMatch {α : Type} (p : α → Bool) (l : List α) (x : α) : Prop :=
  ∃ l1 l2, l = l1 ++ x :: l2 ∧ p x = true ∧ ∀ y ∈ l1, p y = false

/-- The suffix `find_module_file` matches against: the dotted module
path with dots as path separators, followed by the index file name. -/
def moduleSuffix (mp : String) : String :=
  pyJoin "/" (pySplit mp '.') ++ "/index.html"

/- ===============================================================
   Theorems
   =============================================================== -/

/-- C9: a cache get after a set returns the original value unchanged
while the current time is strictly before the stored expiry
`now + ttl`, returns absent once the current time reaches or passes
the expiry regardless of the stored value, and returns absent for a
key that was never set. -/
theorem cache_ttl_correct {V : Type} (c : List (String × V × ℚ)) (key : String)
    (v : V) (now ttl tGet : ℚ) :
    (tGet < now + ttl →
      cache_get (cache_set c key v now ttl) key tGet = some v) ∧
    (now + ttl ≤ tGet →
      cache_get (cache_set c key v now ttl) key tGet = none) ∧
    (key ∉ c.map (fun e => e.1) → cache_get c key tGet = none) := by
  have hfind : (cache_set c key v now ttl).find? (fun e => e.1 == key)
      = some (key, v, now + ttl) := by
    simp [cache_set, List.find?]
  refine ⟨?_, ?_, ?_⟩
  · intro h
    rw [cache_get, hfind]
    exact if_pos h
  · intro h
    rw [cache_get, hfind]
    exact if_neg (not_lt.mpr h)
  · intro hk
    have hnone : c.find? (fun e => e.1 == key) = none := by
      rw [List.find?_eq_none]
      intro e he
      simp only [beq_iff_eq]
      intro h1
      exact hk (h1 ▸ List.mem_map_of_mem (fun e => e.1) he)
    rw [cache_get, hnone]

/-- Witness for C9: a value set at time 0 with ttl 2 and read at
time 1 is returned unchanged, a value set with ttl 1 and read at
time 2 is absent, and a key never set is absent. -/
theorem cache_ttl_correct_witness :
    cache_get (cache_set ([] : List (String × Nat × ℚ)) "k" 7 0 2) "k" 1
      = some 7 ∧
    cache_get (cache_set ([] : List (String × Nat × ℚ)) "k" 7 0 1) "k" 2
      = none ∧
    cache_get ([] : List (String × Nat × ℚ)) "k" 2 = none :=
  ⟨(cache_ttl_correct [] "k" 7 0 2 1).1 (by simp),
   (cache_ttl_correct [] "k" 7 0 1 2).2.1 (by simp),
   (cache_ttl_correct [] "k" 7 0 1 2).2.2 (by simp)⟩

/-- Closed form of the `extract_specs` scan loop. -/
theorem extract_specs_loop_eq (limit : Nat) (divs : List SpecDiv) :
    ∀ acc : List SpecItem, acc.length ≤ limit →
      extract_specs_loop limit divs acc =
        (acc ++ (divs.take (limit - acc.length)).map processDiv,
         decide (limit - acc.length < divs.length)) := by
  induction divs with
  | nil =>
    intro acc h
    simp [extract_specs_loop]
  | cons d rest ih =>
    intro acc h
    rw [extract_specs_loop]
    by_cases hl : acc.length ≥ limit
    · rw [if_pos hl]
      have hlim : limit - acc.length = 0 := by omega
      simp [hlim]
    · rw [if_neg hl]
      have h1 : (acc ++ [processDiv d]).length ≤ limit := by
        simp only [List.length_append, List.length_cons, List.length_nil]
        omega
      rw [ih _ h1]
      have h2 : limit - (acc ++ [processDiv d]).length
          = limit - acc.length - 1 := by
        simp only [List.length_append, List.length_cons, List.length_nil]
        omega
      have h3 : limit - acc.length = (limit - acc.length - 1) + 1 := by omega
      refine Prod.ext ?_ ?_
      · show acc ++ [processDiv d]
            ++ (rest.take (limit - (acc ++ [processDiv d]).length)).map processDiv
          = acc ++ ((d :: rest).take (limit - acc.length)).map processDiv
        rw [h2, h3, List.take_succ_cons]
        simp [List.append_assoc]
      · show decide (limit - (acc ++ [processDiv d]).length < rest.length)
          = decide (limit - acc.length < (d :: rest).length)
        rw [h2, decide_eq_decide]
        simp only [List.length_cons]
        omega

/-- C4: `extract_specs` keeps the first `limit` containers in document
order, hence returns `min (number of containers) limit` items, and
`truncated` is true exactly when strictly more containers existed than
the limit (so 150 containers with limit 100 give 100 items and
`truncated`; 50 containers give 50 items untruncated; exactly `limit`
containers give `truncated = false`). -/
theorem extract_specs_truncation (divs : List SpecDiv) (limit : Nat) :
    (extract_specs divs limit).1 = (divs.take limit).map processDiv ∧
    (extract_specs divs limit).1.length = min divs.length limit ∧
    ((extract_specs divs limit).2 = true ↔ limit < divs.length) := by
  have h := extract_specs_loop_eq limit divs [] (by simp)
  simp only [List.nil_append, List.length_nil, Nat.sub_zero] at h
  rw [extract_specs, h]
  refine ⟨rfl, ?_, ?_⟩
  · simp [List.length_take, Nat.min_comm]
  · simp

theorem isPrefixOf_eq_true_of {p s : List Char} (h : p <+: s) :
    p.isPrefixOf s = true :=
  ( List.isPrefixOf_iff_prefix).mpr h

theorem isPrefixOf_eq_false_of_not {p s : List Char} (h : ¬(p <+: s)) :
    p.isPrefixOf s = false := by
  cases hq : p.isPrefixOf s with
  | false => rfl
  | true => exact absurd (( List.isPrefixOf_iff_prefix).mp hq) h

/-- If `p` and `q` are incomparable and `p` starts `s`, then `q` does
not start `s` (two starts of the same list are always comparable). -/
theorem prefix_excl {α : Type} {p q s : List α} (h1 : ¬(p <+: q))
    (h2 : ¬(q <+: p)) (hp : p <+: s) : ¬(q <+: s) := fun hq =>
  ( List.prefix_or_prefix_of_prefix hp hq).elim h1 h2

/-- C5: an identifier of the form `module-type-<X>` classifies as kind
"module type" with name `<X>` (never as "module" with name
`type-<X>`), and in general the ordered startswith chain of the source
computes exactly the longest-prefix match over the prefix table, with
unmatched identifiers yielding kind "other" and the full identifier
as name. -/
theorem spec_kind_longest_prefix :
    (∀ rest : List Char,
      categorize ("module-type-".toList ++ rest) = ("module type", rest)) ∧
    (∀ anchor : List Char, categorize anchor = categorizeLongest anchor) := by
  have L1 : ("val-".toList).length = 4 := rfl
  have L2 : ("type-".toList).length = 5 := rfl
  have L3 : ("module-type-".toList).length = 12 := rfl
  have L4 : ("module-".toList).length = 7 := rfl
  have L5 : ("exception-".toList).length = 10 := rfl
  have L6 : ("class-".toList).length = 6 := rfl
  constructor
  · intro rest
    have hv : ("val-".toList).isPrefixOf ("module-type-".toList ++ rest)
        = false := rfl
    have ht : ("type-".toList).isPrefixOf ("module-type-".toList ++ rest)
        = false := rfl
    have hmt : ("module-type-".toList).isPrefixOf ("module-type-".toList ++ rest)
        = true := isPrefixOf_eq_true_of ⟨rest, rfl⟩
    have hd : ("module-type-".toList ++ rest).drop 12 = rest := rfl
    simp [categorize, hv, ht, hmt, hd]
  · intro anchor
    by_cases hv : ['v', 'a', 'l', '-'] <+: anchor
    · have b2 : ¬(['t', 'y', 'p', 'e', '-'] <+: anchor) :=
        prefix_excl (by decide) (by decide) hv
      have b3 : ¬(['m', 'o', 'd', 'u', 'l', 'e', '-', 't', 'y', 'p', 'e', '-'] <+: anchor) :=
        prefix_excl (by decide) (by decide) hv
      have b4 : ¬(['m', 'o', 'd', 'u', 'l', 'e', '-'] <+: anchor) :=
        prefix_excl (by decide) (by decide) hv
      have b5 : ¬(['e', 'x', 'c', 'e', 'p', 't', 'i', 'o', 'n', '-'] <+: anchor) :=
        prefix_excl (by decide) (by decide) hv
      have b6 : ¬(['c', 'l', 'a', 's', 's', '-'] <+: anchor) :=
        prefix_excl (by decide) (by decide) hv
      simp [categorize, categorizeLongest, prefixTable, longestEntry,
        hv, b2, b3, b4, b5, b6]
    · by_cases ht : ['t', 'y', 'p', 'e', '-'] <+: anchor
      · have b3 : ¬(['m', 'o', 'd', 'u', 'l', 'e', '-', 't', 'y', 'p', 'e', '-'] <+: anchor) :=
          prefix_excl (by decide) (by decide) ht
        have b4 : ¬(['m', 'o', 'd', 'u', 'l', 'e', '-'] <+: anchor) :=
          prefix_excl (by decide) (by decide) ht
        have b5 : ¬(['e', 'x', 'c', 'e', 'p', 't', 'i', 'o', 'n', '-'] <+: anchor) :=
          prefix_excl (by decide) (by decide) ht
        have b6 : ¬(['c', 'l', 'a', 's', 's', '-'] <+: anchor) :=
          prefix_excl (by decide) (by decide) ht
        simp [categorize, categorizeLongest, prefixTable, longestEntry,
          hv, ht, b3, b4, b5, b6]
      · by_cases hmt : ['m', 'o', 'd', 'u', 'l', 'e', '-', 't', 'y', 'p', 'e', '-'] <+: anchor
        · have hm : ['m', 'o', 'd', 'u', 'l', 'e', '-'] <+: anchor :=
            List.IsPrefix.trans (by decide) hmt
          have b5 : ¬(['e', 'x', 'c', 'e', 'p', 't', 'i', 'o', 'n', '-'] <+: anchor) :=
            prefix_excl (by decide) (by decide) hmt
          have b6 : ¬(['c', 'l', 'a', 's', 's', '-'] <+: anchor) :=
            prefix_excl (by decide) (by decide) hmt
          simp [categorize, categorizeLongest, prefixTable, longestEntry,
            hv, ht, hmt, hm, b5, b6]
        · by_cases hm : ['m', 'o', 'd', 'u', 'l', 'e', '-'] <+: anchor
          · have b5 : ¬(['e', 'x', 'c', 'e', 'p', 't', 'i', 'o', 'n', '-'] <+: anchor) :=
              prefix_excl (by decide) (by decide) hm
            have b6 : ¬(['c', 'l', 'a', 's', 's', '-'] <+: anchor) :=
              prefix_excl (by decide) (by decide) hm
            simp [categorize, categorizeLongest, prefixTable, longestEntry,
              hv, ht, hmt, hm, b5, b6]
          · by_cases he : ['e', 'x', 'c', 'e', 'p', 't', 'i', 'o', 'n', '-'] <+: anchor
            · have b6 : ¬(['c', 'l', 'a', 's', 's', '-'] <+: anchor) :=
                prefix_excl (by decide) (by decide) he
              simp [categorize, categorizeLongest, prefixTable, longestEntry,
                hv, ht, hmt, hm, he, b6]
            · by_cases hc : ['c', 'l', 'a', 's', 's', '-'] <+: anchor
              · simp [categorize, categorizeLongest, prefixTable, longestEntry,
                  hv, ht, hmt, hm, he, hc]
              · simp [categorize, categorizeLongest, prefixTable, longestEntry,
                  hv, ht, hmt, hm, he, hc]

/-- List `find?` returns exactly the first element satisfying the
predicate. -/
theorem find?_eq_some_iff_firstMatch {α : Type} (p : α → Bool)
    (l : List α) (x : α) :
    l.find? p = some x ↔ FirstMatch p l x := by
  induction l with
  | nil =>
    simp only [List.find?_nil, FirstMatch]
    constructor
    · intro h
      exact absurd h (by simp)
    · rintro ⟨l1, l2, heq, -, -⟩
      exact absurd heq.symm (by simp)
  | cons a t ih =>
    cases hpa : p a with
    | true =>
      rw [List.find?_cons_of_pos _ hpa]
      constructor
      · intro h
        obtain rfl : a = x := by injection h
        exact ⟨[], t, rfl, hpa, by simp⟩
      · rintro ⟨l1, l2, heq, hx, hnone⟩
        cases l1 with
        | nil =>
          obtain ⟨rfl, rfl⟩ : a = x ∧ t = l2 := by
            constructor <;> injection heq
          rfl
        | cons b l1' =>
          obtain ⟨rfl, -⟩ : a = b ∧ t = l1' ++ x :: l2 := by
            constructor <;> injection heq
          exact absurd hpa (by simp [hnone a (List.mem_cons_self a l1')])
    | false =>
      rw [List.find?_cons_of_neg _ (by simp [hpa])]
      rw [ih]
      constructor
      · rintro ⟨l1, l2, heq, hx, hnone⟩
        exact ⟨a :: l1, l2, by rw [heq, List.cons_append], hx,
          by
            intro y hy
            rcases List.mem_cons.mp hy with rfl | hy'
            · exact hpa
            · exact hnone y hy'⟩
      · rintro ⟨l1, l2, heq, hx, hnone⟩
        cases l1 with
        | nil =>
          obtain ⟨rfl, -⟩ : a = x ∧ t = l2 := by
            constructor <;> injection heq
          exact absurd hpa (by simp [hx])
        | cons b l1' =>
          obtain ⟨rfl, htl⟩ : a = b ∧ t = l1' ++ x :: l2 := by
            constructor <;> injection heq
          exact ⟨l1', l2, htl, hx,
            fun y hy => hnone y (List.mem_cons_of_mem _ hy)⟩

/-- C6: `find_module_file` first scans the artifact list in order for
an exact suffix match of `<dots-as-slashes>/index.html` and returns
the first one; only when no exact match exists does it rescan with
the same suffix test case-insensitively, returning the first match of
that pass; the result is absent exactly when neither pass matches any
path. -/
theorem find_module_file_two_pass (files : List String) (mp : String) :
    ((∃ f ∈ files, pyEndsWith f (moduleSuffix mp) = true) →
      ∃ f, FirstMatch (fun g => pyEndsWith g (moduleSuffix mp)) files f ∧
        find_module_file files mp = some f) ∧
    ((∀ f ∈ files, pyEndsWith f (moduleSuffix mp) = false) →
      ∀ g, (find_module_file files mp = some g ↔
        FirstMatch
          (fun h => pyEndsWith (pyLower h) (pyLower (moduleSuffix mp)))
          files g)) ∧
    (find_module_file files mp = none ↔
      ((∀ f ∈ files, pyEndsWith f (moduleSuffix mp) = false) ∧
       (∀ f ∈ files,
         pyEndsWith (pyLower f) (pyLower (moduleSuffix mp)) = false))) := by
  set suffix := moduleSuffix mp
  have hdef : find_module_file files mp =
      match files.find? (fun f => pyEndsWith f suffix) with
      | some f => some f
      | none => files.find? (fun f => pyEndsWith (pyLower f) (pyLower suffix)) :=
    rfl
  refine ⟨?_, ?_, ?_⟩
  · rintro ⟨f0, hf0, hp0⟩
    cases he : files.find? (fun f => pyEndsWith f suffix) with
    | none =>
      rw [List.find?_eq_none] at he
      exact absurd hp0 (by simp [he f0 hf0])
    | some f =>
      refine ⟨f, (find?_eq_some_iff_firstMatch _ _ _).mp he, ?_⟩
      rw [hdef, he]
  · intro hnone g
    have he : files.find? (fun f => pyEndsWith f suffix) = none :=
      List.find?_eq_none.mpr (by intro x hx; simp [hnone x hx])
    rw [hdef, he]
    exact find?_eq_some_iff_firstMatch _ _ _
  · rw [hdef]
    cases he : files.find? (fun f => pyEndsWith f suffix) with
    | some f =>
      simp only [reduceCtorEq, false_iff, not_and]
      intro hall
      exfalso
      have hpf := List.find?_some he
      have hmem := List.mem_of_find?_eq_some he
      simp [hall f hmem] at hpf
    | none =>
      rw [List.find?_eq_none] at he
      constructor
      · intro h2
        refine ⟨fun f hf => by simpa using he f hf, ?_⟩
        rw [List.find?_eq_none] at h2
        intro f hf
        simpa using h2 f hf
      · rintro ⟨-, h2⟩
        exact List.find?_eq_none.mpr (by intro x hx; simp [h2 x hx])

/-- Witness for C6 on the two vectors of the spec: `doc/Base/List/index.html`
matches `Base.List` in the exact pass, and `doc/BASE/LIST/index.html`
matches the same dotted path through the case-insensitive pass. -/
theorem find_module_file_two_pass_witness :
    find_module_file ["doc/Base/List/index.html"] "Base.List"
      = some "doc/Base/List/index.html" ∧
    find_module_file ["doc/BASE/LIST/index.html"] "Base.List"
      = some "doc/BASE/LIST/index.html" := by
  constructor
  · obtain ⟨f, ⟨l1, l2, heq, hpf, hnone⟩, hfind⟩ :=
      (find_module_file_two_pass ["doc/Base/List/index.html"] "Base.List").1
        ⟨"doc/Base/List/index.html", by simp, by decide⟩
    cases l1 with
    | nil =>
      rw [List.nil_append] at heq
      injection heq with h1 h2
      rw [hfind, ← h1]
    | cons b l1' =>
      rw [List.cons_append] at heq
      injection heq with h1 h2
      exact absurd h2.symm (by simp)
  · exact ((find_module_file_two_pass ["doc/BASE/LIST/index.html"] "Base.List").2.1
      (by decide) "doc/BASE/LIST/index.html").mpr
      ⟨[], [], rfl, by decide, by simp⟩

/- ---------------------------------------------------------------
   Order lemmas for the lexicographic string comparison.
   --------------------------------------------------------------- -/

theorem charsLe_total : ∀ (a b : List Char),
    charsLe a b = true ∨ charsLe b a = true
  | [], _ => Or.inl rfl
  | _ :: _, [] => Or.inr rfl
  | x :: xs, y :: ys => by
    simp only [charsLe]
    by_cases h1 : x < y
    · left; simp [h1]
    · by_cases h2 : y < x
      · right; simp [h2]
      · rcases charsLe_total xs ys with h | h
        · left; simp [h1, h2, h]
        · right; simp [h1, h2, h]

theorem charsLe_trans : ∀ {a b c : List Char},
    charsLe a b = true → charsLe b c = true → charsLe a c = true
  | [], _, _, _, _ => rfl
  | _ :: _, [], _, hab, _ => by simp [charsLe] at hab
  | _ :: _, _ :: _, [], _, hbc => by simp [charsLe] at hbc
  | x :: xs, y :: ys, z :: zs, hab, hbc => by
    simp only [charsLe] at hab hbc ⊢
    by_cases h1 : x < y
    · by_cases h2 : y < z
      · simp [lt_trans h1 h2]
      · by_cases h3 : z < y
        · simp [h2, h3] at hbc
        · have hyz : y = z := le_antisymm (not_lt.mp h3) (not_lt.mp h2)
          subst hyz
          simp [h1]
    · by_cases h3 : y < x
      · simp [h1, h3] at hab
      · have hxy : x = y := le_antisymm (not_lt.mp h3) (not_lt.mp h1)
        subst hxy
        simp only [lt_irrefl, if_false] at hab
        by_cases h2 : x < z
        · simp [h2]
        · by_cases h4 : z < x
          · simp [h2, h4] at hbc
          · have hxz : x = z := le_antisymm (not_lt.mp h4) (not_lt.mp h2)
            subst hxz
            simp only [lt_irrefl, if_false] at hbc ⊢
            exact charsLe_trans hab hbc

theorem charsLe_antisymm : ∀ {a b : List Char},
    charsLe a b = true → charsLe b a = true → a = b
  | [], [], _, _ => rfl
  | [], _ :: _, _, hba => by simp [charsLe] at hba
  | _ :: _, [], hab, _ => by simp [charsLe] at hab
  | x :: xs, y :: ys, hab, hba => by
    simp only [charsLe] at hab hba
    by_cases h1 : x < y
    · have h2 : ¬ y < x := lt_asymm h1
      simp [h1, h2] at hba
    · by_cases h2 : y < x
      · simp [h1, h2] at hab
      · have hxy : x = y := le_antisymm (not_lt.mp h2) (not_lt.mp h1)
        subst hxy
        simp only [lt_irrefl, if_false] at hab hba
        rw [charsLe_antisymm hab hba]

instance : IsTotal String pyStrLeP :=
  ⟨fun a b => charsLe_total a.toList b.toList⟩

instance : IsTrans String pyStrLeP :=
  ⟨fun _ _ _ hab hbc => charsLe_trans hab hbc⟩

instance : IsAntisymm String pyStrLeP :=
  ⟨fun _ _ hab hba => String.toList_inj.mp (charsLe_antisymm hab hba)⟩

/- ---------------------------------------------------------------
   The "available top-level modules" hint equals its spec-side
   description.
   --------------------------------------------------------------- -/

theorem mem_pySetAdd {s : List String} {x y : String} :
    y ∈ pySetAdd s x ↔ y ∈ s ∨ y = x := by
  unfold pySetAdd
  split_ifs with h
  · constructor
    · exact Or.inl
    · rintro (h1 | rfl)
      · exact h1
      · exact h
  · simp

theorem nodup_pySetAdd {s : List String} {x : String} (h : s.Nodup) :
    (pySetAdd s x).Nodup := by
  unfold pySetAdd
  split_ifs with hx
  · exact h
  · simp [List.nodup_append, h, hx]

/-- The loop body of the hint computation, in terms of the
qualification test and the extracted segment. -/
def canonStep (acc : List String) (f : String) : List String :=
  if hintQual f then pySetAdd acc (hintExtract f) else acc

theorem topModulesOf_eq_canon (files : List String) :
    topModulesOf files = files.foldl canonStep [] := by
  unfold topModulesOf
  apply List.foldl_ext
  intro acc f _
  unfold canonStep hintQual hintExtract
  by_cases h1 : (pyStartsWith f "doc/" && pyEndsWith f "/index.html") = true
  · by_cases h2 : (pySplit (pyDrop f 4) '/').length ≥ 3
    · simp [h1, h2]
    · simp [h1, h2]
  · simp [h1]

theorem canonFold_mem (files : List String) :
    ∀ (acc : List String) (x : String),
      x ∈ files.foldl canonStep acc ↔
        x ∈ acc ∨ ∃ f ∈ files, hintQual f = true ∧ hintExtract f = x := by
  induction files with
  | nil => simp
  | cons f rest ih =>
    intro acc x
    rw [List.foldl_cons, ih]
    unfold canonStep
    by_cases hq : hintQual f
    · rw [if_pos hq]
      rw [mem_pySetAdd]
      constructor
      · rintro ((h | rfl) | h)
        · exact Or.inl h
        · exact Or.inr ⟨f, List.mem_cons_self f rest, hq, rfl⟩
        · obtain ⟨g, hg, hqg, hex⟩ := h
          exact Or.inr ⟨g, List.mem_cons_of_mem _ hg, hqg, hex⟩
      · rintro (h | ⟨g, hg, hqg, hex⟩)
        · exact Or.inl (Or.inl h)
        · rcases List.mem_cons.mp hg with rfl | hg'
          · exact Or.inl (Or.inr hex.symm)
          · exact Or.inr ⟨g, hg', hqg, hex⟩
    · rw [if_neg hq]
      constructor
      · rintro (h | ⟨g, hg, hqg, hex⟩)
        · exact Or.inl h
        · exact Or.inr ⟨g, List.mem_cons_of_mem _ hg, hqg, hex⟩
      · rintro (h | ⟨g, hg, hqg, hex⟩)
        · exact Or.inl h
        · rcases List.mem_cons.mp hg with rfl | hg'
          · exact absurd hqg (by simp [hq])
          · exact Or.inr ⟨g, hg', hqg, hex⟩

theorem canonFold_nodup (files : List String) :
    ∀ acc : List String, acc.Nodup → (files.foldl canonStep acc).Nodup := by
  induction files with
  | nil => intro acc h; simpa using h
  | cons f rest ih =>
    intro acc h
    rw [List.foldl_cons]
    apply ih
    unfold canonStep
    split_ifs
    · exact nodup_pySetAdd h
    · exact h

theorem topModulesOf_mem (files : List String) (x : String) :
    x ∈ topModulesOf files ↔
      ∃ f ∈ files, hintQual f = true ∧ hintExtract f = x := by
  rw [topModulesOf_eq_canon, canonFold_mem]
  simp

theorem topModulesOf_nodup (files : List String) :
    (topModulesOf files).Nodup := by
  rw [topModulesOf_eq_canon]
  exact canonFold_nodup files [] List.nodup_nil

/-- The set built by the source loop, once sorted, is exactly the
sorted deduplicated image of the qualifying paths. -/
theorem availableTopLevelHint_eq_spec (files : List String) :
    availableTopLevelHint files = (hintSpec files).take 30 := by
  unfold availableTopLevelHint hintSpec
  congr 1
  apply List.eq_of_perm_of_sorted (r := pyStrLeP)
  · refine (List.perm_insertionSort _ _).trans (.trans ?_
      (List.perm_insertionSort _ _).symm)
    apply (List.perm_ext_iff_of_nodup (topModulesOf_nodup files)
      (List.nodup_dedup _)).mpr
    intro x
    rw [topModulesOf_mem, List.mem_dedup, List.mem_map]
    constructor
    · rintro ⟨f, hf, hq, hex⟩
      exact ⟨f, List.mem_filter.mpr ⟨hf, hq⟩, hex⟩
    · rintro ⟨f, hf, hex⟩
      obtain ⟨hmem, hq⟩ := List.mem_filter.mp hf
      exact ⟨f, hmem, hq, hex⟩
  · exact List.sorted_insertionSort _ _
  · exact List.sorted_insertionSort _ _

theorem exceptBind_ok {ε α β : Type} (a : α) (f : α → Except ε β) :
    (Except.ok a : Except ε α) >>= f = f a := rfl

theorem exceptBind_error {ε α β : Type} (e : ε) (f : α → Except ε β) :
    (Except.error e : Except ε α) >>= f = Except.error e := rfl

theorem exceptPure_eq {ε α : Type} (a : α) :
    (pure a : Except ε α) = Except.ok a := rfl

/-- C7: when `get_module_doc` finds no artifact for the requested
module path, the hint list of the returned error holds the second
segments of the qualifying artifact paths, deduplicated, sorted ascending, and
cut to the first 30; the hint is itself sorted, duplicate-free, and
of length at most 30, and the pre-cut list holds exactly the second
segments of the qualifying paths. -/
theorem get_module_doc_hint (env : RemoteEnv) (pkg mp : String)
    (v : Option String) (ver : String) (tr : List String) (status : JsonObj)
    (hres : resolve_version env pkg v = .ok (some ver, tr))
    (hstat : get_status env pkg ver = .ok (some status))
    (hfind : find_module_file (status.files.getD []) mp = none) :
    get_module_doc env pkg mp v =
      .ok (.errorWithHint
        ("Module " ++ mp ++ " not found in " ++ pkg ++ "/" ++ ver)
        ((hintSpec (status.files.getD [])).take 30)) ∧
    (availableTopLevelHint (status.files.getD [])).length ≤ 30 ∧
    (availableTopLevelHint (status.files.getD [])).Sorted pyStrLeP ∧
    (availableTopLevelHint (status.files.getD [])).Nodup ∧
    (∀ x, x ∈ hintSpec (status.files.getD []) ↔
      ∃ f ∈ status.files.getD [], hintQual f = true ∧ hintExtract f = x) := by
  refine ⟨?_, ?_, ?_, ?_, ?_⟩
  · have hbody : get_module_doc_body env pkg mp v =
        .ok (.errorWithHint
          ("Module " ++ mp ++ " not found in " ++ pkg ++ "/" ++ ver)
          (availableTopLevelHint (status.files.getD []))) := by
      simp only [get_module_doc_body, hres, exceptBind_ok, hstat, hfind,
        exceptPure_eq]
    simp only [get_module_doc, hbody, availableTopLevelHint_eq_spec]
  · exact List.length_take_le 30 _
  · exact List.Pairwise.sublist (List.take_sublist 30 _)
      (List.sorted_insertionSort _ _)
  · exact List.Nodup.sublist (List.take_sublist 30 _)
      ((List.perm_insertionSort pyStrLeP _).symm.nodup
        (topModulesOf_nodup _))
  · intro x
    unfold hintSpec
    rw [(List.perm_insertionSort _ _).mem_iff, List.mem_dedup, List.mem_map]
    constructor
    · rintro ⟨f, hf, hex⟩
      obtain ⟨hmem, hq⟩ := List.mem_filter.mp hf
      exact ⟨f, hmem, hq, hex⟩
    · rintro ⟨f, hmem, hq, hex⟩
      exact ⟨f, List.mem_filter.mpr ⟨hmem, hq⟩, hex⟩

/-- Witness for C7: with three artifacts under two top-level modules
and a non-matching module path, the hint is the sorted deduplicated
pair of top-level names. -/
theorem get_module_doc_hint_witness :
    get_module_doc statusEnvC7 "pkg" "Zzz" (some "1.0")
      = .ok (.errorWithHint "Module Zzz not found in pkg/1.0"
          ["Alpha", "Beta"]) := by
  have h := get_module_doc_hint statusEnvC7 "pkg" "Zzz" (some "1.0") "1.0" []
    ⟨some false,
      some ["doc/lib/Beta/index.html", "doc/lib/Alpha/index.html",
            "doc/lib/Alpha/Sub/index.html"], none, none⟩
    (by rfl) (by rfl) (by decide)
  rw [h.1]
  rfl

/-- C10: when the fetched status record lacks the `failed` field,
`get_package_info` reports `failed` as `true` (absence of the flag is
treated as a failed build). -/
theorem get_package_info_failed_default (env : RemoteEnv) (pkg : String)
    (v : Option String) (ver : String) (tr : List String) (status : JsonObj)
    (doc? : Option JsonObj)
    (hres : resolve_version env pkg v = .ok (some ver, tr))
    (hstat : get_status env pkg ver = .ok (some status))
    (hdoc : get_doc_json env pkg ver "doc/index.html.json" = .ok doc?)
    (hfailed : status.failed = none) :
    ∃ desc libs,
      get_package_info env pkg v = .ok (.packageInfo pkg ver true desc libs) := by
  have hbody : ∃ desc libs, get_package_info_body env pkg v
      = .ok (.packageInfo pkg ver true desc libs) := by
    cases doc? with
    | none =>
      refine ⟨"", [], ?_⟩
      simp only [get_package_info_body, hres, exceptBind_ok, hstat, hdoc,
        hfailed, Option.getD_none, exceptPure_eq]
    | some doc =>
      by_cases hp : doc.pyTruthy
      · refine ⟨(if extract_preamble_text env.parseHtml (doc.preamble.getD "") == ""
            then extract_preamble_text env.parseHtml (doc.content.getD "")
            else extract_preamble_text env.parseHtml (doc.preamble.getD "")),
          extract_package_libraries_html env.parseHtml (doc.content.getD ""), ?_⟩
        simp only [get_package_info_body, hres, exceptBind_ok, hstat, hdoc,
          hfailed, Option.getD_none, hp, if_true, exceptPure_eq]
      · refine ⟨"", [], ?_⟩
        simp only [get_package_info_body, hres, exceptBind_ok, hstat, hdoc,
          hfailed, Option.getD_none, hp, if_false, exceptPure_eq]
        simp
  obtain ⟨desc, libs, hb⟩ := hbody
  exact ⟨desc, libs, by simp only [get_package_info, hb]⟩

/-- Witness for C10: a status record without the `failed` field yields
`failed = true` in the package-info result. -/
theorem get_package_info_failed_default_witness :
    get_package_info statusEnvC10 "pkg" (some "1.0")
      = .ok (.packageInfo "pkg" "1.0" true "" []) := by
  obtain ⟨desc, libs, h⟩ := get_package_info_failed_default statusEnvC10
    "pkg" (some "1.0") "1.0" [] ⟨none, some [], none, none⟩ none
    rfl rfl rfl rfl
  exact rfl

/-- C3 counterexample: the resolver is truthiness-based, so the
explicitly given version string `""` is NOT returned verbatim: the
resolver falls through to the version-listing path and fetches the
version listing page of the package. -/
theorem resolve_version_empty_counterexample :
    resolve_version notFoundEnv "foo" (some "") =
      .ok (none, ["https://sage.ci.dev/current/p/foo/"]) ∧
    resolve_version notFoundEnv "foo" (some "") ≠ .ok (some "", []) := by
  refine ⟨rfl, ?_⟩
  have h1 : resolve_version notFoundEnv "foo" (some "")
      = .ok (none, ["https://sage.ci.dev/current/p/foo/"]) := rfl
  rw [h1]
  simp

/-- C3 amended: for every NON-EMPTY explicit version string, the
resolver returns it verbatim and performs no fetch (empty trace); the
empty string is treated as "no version given". -/
theorem resolve_version_explicit (env : RemoteEnv) (pkg v : String)
    (h : v ≠ "") :
    resolve_version env pkg (some v) = .ok (some v, []) := by
  unfold resolve_version
  rw [if_pos (by simp [pyTruthyStr, h])]

/-- Witness for the amended C3. -/
theorem resolve_version_explicit_witness :
    resolve_version notFoundEnv "foo" (some "1.2.3")
      = .ok (some "1.2.3", []) :=
  resolve_version_explicit notFoundEnv "foo" "1.2.3" (by decide)

/-- C2 counterexample: on a transport failure `fetch_text` and
`fetch_json` do not return an absent result — the transport exception
propagates out of the fetch layer (to be caught, if at all, at the
query surface). -/
theorem fetch_transport_counterexample :
    fetch_text offlineEnv "https://sage.ci.dev/current/p/"
      = .error (.clientError "connection refused") ∧
    fetch_json offlineEnv "https://sage.ci.dev/current/p/"
      = .error (.clientError "connection refused") ∧
    fetch_text offlineEnv "https://sage.ci.dev/current/p/" ≠ .ok none ∧
    fetch_json offlineEnv "https://sage.ci.dev/current/p/" ≠ .ok none := by
  refine ⟨rfl, rfl, ?_, ?_⟩
  · have h1 : fetch_text offlineEnv "https://sage.ci.dev/current/p/"
        = .error (.clientError "connection refused") := rfl
    rw [h1]
    simp
  · have h1 : fetch_json offlineEnv "https://sage.ci.dev/current/p/"
        = .error (.clientError "connection refused") := rfl
    rw [h1]
    simp

/-- C2 amended: `fetch_text` and `fetch_json` return absent exactly on
a non-success HTTP status; a transport failure instead propagates as
the raised exception. -/
theorem fetch_absent_amended (env : RemoteEnv) (url : String) :
    (∀ status body, env.httpGet url = .ok (status, body) → status ≠ 200 →
      fetch_text env url = .ok none ∧ fetch_json env url = .ok none) ∧
    (∀ e, env.httpGet url = .error e →
      fetch_text env url = .error e ∧ fetch_json env url = .error e) := by
  constructor
  · intro status body hget hs
    constructor
    · simp only [fetch_text, hget, exceptBind_ok]
      rw [if_pos hs]
      rfl
    · simp only [fetch_json, hget, exceptBind_ok]
      rw [if_pos hs]
      rfl
  · intro e hget
    exact ⟨by simp only [fetch_text, hget, exceptBind_error],
           by simp only [fetch_json, hget, exceptBind_error]⟩

/-- Witness for the amended C2: a 404 yields absent for both
variants; a transport failure propagates. -/
theorem fetch_absent_amended_witness :
    fetch_text notFoundEnv "u" = .ok none ∧
    fetch_json notFoundEnv "u" = .ok none ∧
    fetch_text offlineEnv "u" = .error (.clientError "connection refused") :=
  ⟨((fetch_absent_amended notFoundEnv "u").1 404 "" rfl (by decide)).1,
   ((fetch_absent_amended notFoundEnv "u").1 404 "" rfl (by decide)).2,
   ((fetch_absent_amended offlineEnv "u").2
     (.clientError "connection refused") rfl).1⟩

/-- C1 counterexample: `get_local_module_doc` has no `try`/`except`
boundary, so a JSON decode error in a present local doc file
propagates to the caller instead of becoming a structured error
result. -/
theorem get_local_module_doc_uncaught :
    get_local_module_doc badLocalEnv "Mod"
      = .error (.other "Expecting value") := rfl

/-- C1 amended: the four remote query operations catch every failure
at their boundary and always return a structured result, but the two
local operations have no such boundary: filesystem or JSON-decode
failures propagate out of them as exceptions. -/
theorem query_surface_boundary :
    (∀ (env : RemoteEnv) (q : String), ∃ r, sherlodoc env q = .ok r) ∧
    (∀ (env : RemoteEnv) (q : String),
      ∃ r, search_package_names env q = .ok r) ∧
    (∀ (env : RemoteEnv) (p : String) (v : Option String),
      ∃ r, get_package_info env p v = .ok r) ∧
    (∀ (env : RemoteEnv) (p m : String) (v : Option String),
      ∃ r, get_module_doc env p m v = .ok r) ∧
    (∃ (env : LocalEnv) (m : String) (e : PyErr),
      get_local_module_doc env m = .error e) ∧
    (∃ (env : LocalEnv) (e : PyErr), list_local_modules env = .error e) :=
  ⟨fun _ _ => ⟨_, rfl⟩, fun _ _ => ⟨_, rfl⟩, fun _ _ _ => ⟨_, rfl⟩,
   fun _ _ _ _ => ⟨_, rfl⟩,
   ⟨badLocalEnv, "Mod", .other "Expecting value", rfl⟩,
   ⟨badScanEnv, .other "Permission denied", rfl⟩⟩

/-- With no level-2 heading among the children, a walk started with an
open accumulator keeps its name and appends every linked list item to
its modules. -/
theorem fold_no_h2_some : ∀ (nodes : List PNode),
    (∀ n ∈ nodes, n.isH2 = false) →
    ∀ (L : List Library) (lib : Library),
      nodes.foldl processNode (L, some lib)
        = (L, some ⟨lib.name, lib.modules ++ linkedModules nodes⟩) := by
  intro nodes
  induction nodes with
  | nil =>
    intro _ L lib
    simp [linkedModules]
  | cons n rest ih =>
    intro h L lib
    have hn := h n (List.mem_cons_self n rest)
    have hrest : ∀ m ∈ rest, m.isH2 = false :=
      fun m hm => h m (List.mem_cons_of_mem n hm)
    cases n with
    | h2 t => simp [PNode.isH2] at hn
    | listEl lis =>
      rw [List.foldl_cons]
      by_cases hm : (modulesOfList lis).isEmpty
      · have hempty : modulesOfList lis = [] := by simpa using hm
        simp only [processNode, hm, if_true]
        rw [ih hrest L lib]
        simp [linkedModules, hempty]
      · simp only [processNode]
        rw [if_neg (by simpa using hm)]
        rw [ih hrest L ⟨lib.name, lib.modules ++ modulesOfList lis⟩]
        simp [linkedModules, List.append_assoc]
    | otherEl =>
      rw [List.foldl_cons]
      simp only [processNode]
      rw [ih hrest L lib]
      simp [linkedModules]
    | nonElement =>
      rw [List.foldl_cons]
      simp only [processNode]
      rw [ih hrest L lib]
      simp [linkedModules]

/-- With no level-2 heading and no accumulator open, the walk opens
the `"default"` accumulator at the first linked list item and collects
every linked list item into it. -/
theorem fold_no_h2_none : ∀ (nodes : List PNode),
    (∀ n ∈ nodes, n.isH2 = false) →
    ∀ L : List Library,
      nodes.foldl processNode (L, none)
        = if linkedModules nodes = [] then (L, none)
          else (L, some ⟨"default", linkedModules nodes⟩) := by
  intro nodes
  induction nodes with
  | nil =>
    intro _ L
    simp [linkedModules]
  | cons n rest ih =>
    intro h L
    have hn := h n (List.mem_cons_self n rest)
    have hrest : ∀ m ∈ rest, m.isH2 = false :=
      fun m hm => h m (List.mem_cons_of_mem n hm)
    cases n with
    | h2 t => simp [PNode.isH2] at hn
    | listEl lis =>
      rw [List.foldl_cons]
      by_cases hm : (modulesOfList lis).isEmpty
      · have hempty : modulesOfList lis = [] := by simpa using hm
        simp only [processNode, hm, if_true]
        rw [ih hrest L]
        simp [linkedModules, hempty]
      · have hne : modulesOfList lis ≠ [] := by simpa using hm
        simp only [processNode]
        rw [if_neg (by simpa using hm)]
        rw [fold_no_h2_some rest hrest L ⟨"default", modulesOfList lis⟩]
        have hlm : linkedModules (PNode.listEl lis :: rest)
            = modulesOfList lis ++ linkedModules rest := by
          simp [linkedModules]
        rw [hlm, if_neg (by simp [hne])]
    | otherEl =>
      rw [List.foldl_cons]
      simp only [processNode]
      rw [ih hrest L]
      simp [linkedModules]
    | nonElement =>
      rw [List.foldl_cons]
      simp only [processNode]
      rw [ih hrest L]
      simp [linkedModules]

/-- C8: for children containing `ul`/`dl` elements with linked list
items but no level-2 heading, `extract_package_libraries` returns
exactly one library named "default" whose modules are all the linked
list items in document order. -/
theorem extract_package_libraries_default (nodes : List PNode)
    (hno : ∀ n ∈ nodes, n.isH2 = false)
    (hsome : linkedModules nodes ≠ []) :
    extract_package_libraries nodes
      = [⟨"default", linkedModules nodes⟩] := by
  simp only [extract_package_libraries]
  rw [fold_no_h2_none nodes hno [], if_neg hsome]
  rfl

/-- Witness for C8: two flat lists with three items, one of them
unlinked, produce one "default" library with the two linked modules
in order, synopses stripped of the link text and the leading colon. -/
theorem extract_package_libraries_default_witness :
    extract_package_libraries
      [.listEl [⟨some "Foo", "Foo: does foo"⟩], .nonElement,
       .listEl [⟨none, "plain"⟩, ⟨some "Bar", "Bar"⟩]]
      = [⟨"default", [⟨"Foo", "does foo"⟩, ⟨"Bar", ""⟩]⟩] := by
  have h := extract_package_libraries_default
    [.listEl [⟨some "Foo", "Foo: does foo"⟩], .nonElement,
     .listEl [⟨none, "plain"⟩, ⟨some "Bar", "Bar"⟩]]
    (by decide) (by decide)
  rw [h]
  rfl

end OdocMcp
